import Mathlib

/-!
Verification of the parameter synchronization & transport engine of
WiVRn-Resonite-FT against its design specification.

The Rust sources are shallowly embedded:
  * `f32` values are modelled as exact rationals (`ℚ`); the constants
    involved (0.01, 0.4, 0.5, 0.6, 2.0, 3.0, …) and all inputs used in
    concrete runs are exactly representable, so the branch structure of the
    embedded code coincides with the source's.
  * The `as i32` cast of a non-negative float is truncation toward zero,
    embedded as `truncToZero`.
  * Mutation of `&mut self` state is explicit state passing: each operation
    returns the new state together with the list of OSC messages it pushed
    into the bundle, in push order.
  * A Rust panic (out-of-bounds indexing) is `Option.none` in the embedding.

Sources embedded below: `src/core/ext_oscjson.rs` (`MysteryParam::send`,
`OscJsonNode::get`, `has_vsync`), `src/core/ext_tracking/mod.rs`
(`ExtTracking::osc_json`, `process_node_recursive`), `src/core/mod.rs`
(`AvatarOsc::process` chunked sending, `AvatarOsc::avatar` drive switch,
the self-timer thread), `src/core/ext_autopilot.rs` (manual-mode logic and
`trilaterate`).
-/

/-- A typed OSC value as pushed into a bundle (only the variants the embedded
code produces). -/
inductive OscVal where
  | float (v : ℚ)
  | bool (b : Bool)
  deriving DecidableEq

/-- One OSC message: address and single argument, as built by
`AvatarBundle::send_parameter` / `send_input_button` / `send_input_axis`. -/
structure OscMsg where
  addr : String
  val : OscVal
  deriving DecidableEq

/-- `send_parameter` from `bundle.rs`: one message under the avatar-parameter
address space. The embedding keeps the bare parameter name as the address. -/
def sendParameterMsg (name : String) (v : OscVal) : OscMsg :=
  ⟨"/avatar/parameters/" ++ name, v⟩

/-- `send_input_button` from `bundle.rs`. -/
def inputButtonMsg (name : String) (v : Bool) : OscMsg :=
  ⟨"/input/" ++ name, OscVal.bool v⟩

/-- `send_input_axis` from `bundle.rs`. -/
def inputAxisMsg (name : String) (v : ℚ) : OscMsg :=
  ⟨"/input/" ++ name, OscVal.float v⟩

/-- Rust's `as i32` cast of a float that may be assumed finite: truncation
toward zero. -/
def truncToZero (q : ℚ) : ℤ :=
  if 0 ≤ q then ⌊q⌋ else ⌈q⌉

/-- `MysteryParam` from `ext_oscjson.rs`: wire-encoding state for one semantic
identifier.  `addresses` is the fixed 7-slot magnitude-bit array, `last_bits`
the 8-slot change-detection array (slot 7 is the sign bit). -/
structure MysteryParam where
  name : String
  main_address : Option String
  addresses : Fin 7 → Option String
  neg_address : Option String
  num_bits : ℕ
  last_value : ℚ
  last_bits : Fin 8 → Bool

namespace MysteryParam

/-- The magnitude after sign handling in `send` (lines 233-244 of
`ext_oscjson.rs`): with a sign channel the absolute value is used, without one
negative values are clamped to zero. -/
def sendMagnitude (p : MysteryParam) (value : ℚ) : ℚ :=
  if p.neg_address.isSome then |value| else if value < 0 then 0 else value

/-- The quantized level of `send` (line 247 of `ext_oscjson.rs`):
`(value * ((1 << num_bits) - 1) as f32) as i32`. -/
def sendLevel (p : MysteryParam) (value : ℚ) : ℤ :=
  truncToZero (p.sendMagnitude value * ((2 ^ p.num_bits - 1 : ℤ) : ℚ))

/-- First step of `send` (lines 226-231): emit on the main float address when
the value moved by more than 0.01 from the last transmitted one. -/
def sendMain (p : MysteryParam) (value : ℚ) : MysteryParam × List OscMsg :=
  match p.main_address with
  | some addr =>
      if |value - p.last_value| > 1 / 100 then
        ({ p with last_value := value }, [sendParameterMsg addr (OscVal.float value)])
      else (p, [])
  | none => (p, [])

/-- Second step of `send` (lines 235-240): emit the sign bit (slot 7) when it
changed. -/
def sendNeg (p : MysteryParam) (value : ℚ) : MysteryParam × List OscMsg :=
  match p.neg_address with
  | some addr =>
      if p.last_bits 7 ≠ decide (value < 0) then
        ({ p with last_bits := Function.update p.last_bits 7 (decide (value < 0)) },
          [sendParameterMsg addr (OscVal.bool (decide (value < 0)))])
      else (p, [])
  | none => (p, [])

/-- One iteration of the bit loop in `send` (lines 250-262): emit bit `idx`
of the quantized level when it changed. -/
def bitStep (bits : Fin 7 → Bool) (acc : MysteryParam × List OscMsg) (idx : Fin 7) :
    MysteryParam × List OscMsg :=
  match acc.1.addresses idx with
  | some addr =>
      if acc.1.last_bits idx.castSucc ≠ bits idx then
        ({ acc.1 with last_bits := Function.update acc.1.last_bits idx.castSucc (bits idx) },
          acc.2 ++ [sendParameterMsg addr (OscVal.bool (bits idx))])
      else acc
  | none => acc

/-- Third step of `send`: the loop over `addresses.iter().enumerate()
.take(num_bits)`. -/
def sendBits (p : MysteryParam) (value : ℚ) : MysteryParam × List OscMsg :=
  let level := p.sendLevel value
  let bits : Fin 7 → Bool := fun idx => level.toNat.testBit idx.val
  List.foldl (bitStep bits) (p, []) ((List.finRange 7).take p.num_bits)

/-- `MysteryParam::send` (lines 224-263 of `ext_oscjson.rs`): returns the
updated binding state and the messages pushed into the bundle, in order. -/
def send (p : MysteryParam) (value : ℚ) : MysteryParam × List OscMsg :=
  let m := p.sendMain value
  let n := m.1.sendNeg value
  let b := n.1.sendBits value
  (b.1, m.2 ++ n.2 ++ b.2)

end MysteryParam


/-! ## Change suppression and quantization (`MysteryParam::send`) -/

namespace MysteryParam

/-- The main float channel needs no message for `v`: either there is no main
address, or the stored value is within epsilon of `v`. -/
def MainOk (p : MysteryParam) (v : ℚ) : Prop :=
  p.main_address = none ∨ |v - p.last_value| ≤ 1 / 100

/-- The sign channel needs no message for `v`: either there is no sign
address, or the stored sign bit matches. -/
def NegOk (p : MysteryParam) (v : ℚ) : Prop :=
  p.neg_address = none ∨ p.last_bits 7 = decide (v < 0)

/-- The bit channels listed in `l` need no message for target bits `bits`. -/
def BitsOkOn (l : List (Fin 7)) (bits : Fin 7 → Bool) (p : MysteryParam) : Prop :=
  ∀ idx ∈ l, ∀ a, p.addresses idx = some a → p.last_bits idx.castSucc = bits idx

theorem sendMain_of_mainOk {p : MysteryParam} {v : ℚ} (h : MainOk p v) :
    p.sendMain v = (p, []) := by
  cases hm : p.main_address with
  | none => simp [sendMain, hm]
  | some addr =>
      rcases h with h | h
      · simp [hm] at h
      · simp [sendMain, hm, not_lt.mpr h, -one_div]

theorem sendMain_post (p : MysteryParam) (v : ℚ) : MainOk ((p.sendMain v).1) v := by
  cases hm : p.main_address with
  | none => exact Or.inl (by simp [sendMain, hm])
  | some addr =>
      by_cases hgt : |v - p.last_value| > 1 / 100
      · refine Or.inr ?_
        simp [sendMain, hm, hgt, -one_div]
        norm_num
      · refine Or.inr ?_
        simp [sendMain, hm, hgt, -one_div]
        exact not_lt.mp hgt

theorem sendMain_state (p : MysteryParam) (v : ℚ) :
    (p.sendMain v).1.main_address = p.main_address ∧
    (p.sendMain v).1.neg_address = p.neg_address ∧
    (p.sendMain v).1.addresses = p.addresses ∧
    (p.sendMain v).1.num_bits = p.num_bits ∧
    (p.sendMain v).1.last_bits = p.last_bits := by
  cases hm : p.main_address with
  | none => simp [sendMain, hm]
  | some addr =>
      by_cases hgt : |v - p.last_value| > 1 / 100
      · simp [sendMain, hm, hgt, -one_div]
      · simp [sendMain, hm, hgt, -one_div]

theorem sendNeg_of_negOk {p : MysteryParam} {v : ℚ} (h : NegOk p v) :
    p.sendNeg v = (p, []) := by
  cases hn : p.neg_address with
  | none => simp [sendNeg, hn]
  | some addr =>
      rcases h with h | h
      · simp [hn] at h
      · simp [sendNeg, hn, h]

theorem sendNeg_post (p : MysteryParam) (v : ℚ) : NegOk ((p.sendNeg v).1) v := by
  cases hn : p.neg_address with
  | none => exact Or.inl (by simp [sendNeg, hn])
  | some addr =>
      by_cases hne : p.last_bits 7 = decide (v < 0)
      · exact Or.inr (by simp [sendNeg, hn, hne])
      · exact Or.inr (by simp [sendNeg, hn, hne])

theorem sendNeg_state (p : MysteryParam) (v : ℚ) :
    (p.sendNeg v).1.main_address = p.main_address ∧
    (p.sendNeg v).1.neg_address = p.neg_address ∧
    (p.sendNeg v).1.addresses = p.addresses ∧
    (p.sendNeg v).1.num_bits = p.num_bits ∧
    (p.sendNeg v).1.last_value = p.last_value ∧
    ∀ k : Fin 8, k ≠ 7 → (p.sendNeg v).1.last_bits k = p.last_bits k := by
  cases hn : p.neg_address with
  | none => simp [sendNeg, hn]
  | some addr =>
      by_cases hne : p.last_bits 7 = decide (v < 0)
      · simp [sendNeg, hn, hne]
      · refine ⟨?_, ?_, ?_, ?_, ?_, ?_⟩ <;>
          simp [sendNeg, hn, hne]
        intro k hk
        exact Function.update_noteq hk _ _

end MysteryParam

namespace MysteryParam

theorem bitStep_state (bits : Fin 7 → Bool) (acc : MysteryParam × List OscMsg) (idx : Fin 7) :
    (bitStep bits acc idx).1.main_address = acc.1.main_address ∧
    (bitStep bits acc idx).1.neg_address = acc.1.neg_address ∧
    (bitStep bits acc idx).1.addresses = acc.1.addresses ∧
    (bitStep bits acc idx).1.num_bits = acc.1.num_bits ∧
    (bitStep bits acc idx).1.last_value = acc.1.last_value ∧
    ∀ k : Fin 8, k ≠ idx.castSucc → (bitStep bits acc idx).1.last_bits k = acc.1.last_bits k := by
  cases ha : acc.1.addresses idx with
  | none => simp [bitStep, ha]
  | some addr =>
      by_cases hne : acc.1.last_bits idx.castSucc = bits idx
      · simp [bitStep, ha, hne]
      · refine ⟨?_, ?_, ?_, ?_, ?_, ?_⟩ <;> simp [bitStep, ha, hne]
        intro k hk
        exact Function.update_noteq hk _ _

theorem bitStep_sets (bits : Fin 7 → Bool) (acc : MysteryParam × List OscMsg) (idx : Fin 7)
    (a : String) (ha : acc.1.addresses idx = some a) :
    (bitStep bits acc idx).1.last_bits idx.castSucc = bits idx := by
  by_cases hne : acc.1.last_bits idx.castSucc = bits idx
  · simp [bitStep, ha, hne]
  · simp [bitStep, ha, hne]

theorem bitStep_of_ok (bits : Fin 7 → Bool) (acc : MysteryParam × List OscMsg) (idx : Fin 7)
    (h : ∀ a, acc.1.addresses idx = some a → acc.1.last_bits idx.castSucc = bits idx) :
    bitStep bits acc idx = acc := by
  cases ha : acc.1.addresses idx with
  | none => simp [bitStep, ha]
  | some addr => simp [bitStep, ha, h addr ha]

/-- The bit loop is silent when every listed bit already stores the target
value. -/
theorem foldl_bitStep_of_ok (bits : Fin 7 → Bool) :
    ∀ (l : List (Fin 7)) (q : MysteryParam) (msgs : List OscMsg),
      BitsOkOn l bits q →
      List.foldl (bitStep bits) (q, msgs) l = (q, msgs) := by
  intro l
  induction l with
  | nil => intro q msgs _; rfl
  | cons idx0 rest ih =>
      intro q msgs h
      rw [List.foldl_cons, bitStep_of_ok bits (q, msgs) idx0 (h idx0 (List.mem_cons_self _ _))]
      exact ih q msgs fun idx hm a ha => h idx (List.mem_cons_of_mem _ hm) a ha

/-- Full description of the bit loop's effect on the binding state. -/
theorem foldl_bitStep_state (bits : Fin 7 → Bool) :
    ∀ (l : List (Fin 7)) (q : MysteryParam) (msgs : List OscMsg),
      (List.foldl (bitStep bits) (q, msgs) l).1.main_address = q.main_address ∧
      (List.foldl (bitStep bits) (q, msgs) l).1.neg_address = q.neg_address ∧
      (List.foldl (bitStep bits) (q, msgs) l).1.addresses = q.addresses ∧
      (List.foldl (bitStep bits) (q, msgs) l).1.num_bits = q.num_bits ∧
      (List.foldl (bitStep bits) (q, msgs) l).1.last_value = q.last_value ∧
      (∀ k : Fin 8, (∀ idx : Fin 7, idx ∈ l → idx.castSucc ≠ k) →
        (List.foldl (bitStep bits) (q, msgs) l).1.last_bits k = q.last_bits k) ∧
      BitsOkOn l bits (List.foldl (bitStep bits) (q, msgs) l).1 := by
  intro l
  induction l with
  | nil =>
      intro q msgs
      exact ⟨rfl, rfl, rfl, rfl, rfl, fun k _ => rfl, fun idx hm => absurd hm (List.not_mem_nil idx)⟩
  | cons idx0 rest ih =>
      intro q msgs
      rw [List.foldl_cons]
      obtain ⟨s1, s2, s3, s4, s5, s6⟩ := bitStep_state bits (q, msgs) idx0
      rcases hstep : bitStep bits (q, msgs) idx0 with ⟨q1, msgs1⟩
      rw [hstep] at s1 s2 s3 s4 s5 s6
      obtain ⟨i1, i2, i3, i4, i5, i6, i7⟩ := ih q1 msgs1
      refine ⟨i1.trans s1, i2.trans s2, i3.trans s3, i4.trans s4, i5.trans s5, ?_, ?_⟩
      · intro k hk
        rw [i6 k fun idx hm => hk idx (List.mem_cons_of_mem _ hm)]
        exact s6 k (hk idx0 (List.mem_cons_self _ _)).symm ▸ rfl
      · intro idx hm a ha
        rcases List.mem_cons.mp hm with rfl | hmem
        · by_cases hrest : idx ∈ rest
          · exact i7 idx hrest a ha
          · have ha2 : q.addresses idx = some a := by
              have i3a : (List.foldl (bitStep bits) (q1, msgs1) rest).1.addresses = q1.addresses := i3
              have s3a : q1.addresses = q.addresses := s3
              rw [i3a, s3a] at ha
              exact ha
            have hset : q1.last_bits idx.castSucc = bits idx := by
              have h2 := bitStep_sets bits (q, msgs) idx a ha2
              rw [hstep] at h2
              exact h2
            rw [i6 idx.castSucc fun j hj hcast => hrest ((Fin.castSucc_injective 7 hcast) ▸ hj)]
            exact hset
        · exact i7 idx hmem a ha

end MysteryParam

namespace MysteryParam

theorem sendBits_of_ok {p : MysteryParam} {v : ℚ}
    (h : BitsOkOn ((List.finRange 7).take p.num_bits)
      (fun idx => (p.sendLevel v).toNat.testBit idx.val) p) :
    p.sendBits v = (p, []) := by
  simp only [sendBits]
  exact foldl_bitStep_of_ok _ _ p [] h

theorem sendBits_state (p : MysteryParam) (v : ℚ) :
    (p.sendBits v).1.main_address = p.main_address ∧
    (p.sendBits v).1.neg_address = p.neg_address ∧
    (p.sendBits v).1.addresses = p.addresses ∧
    (p.sendBits v).1.num_bits = p.num_bits ∧
    (p.sendBits v).1.last_value = p.last_value ∧
    (p.sendBits v).1.last_bits 7 = p.last_bits 7 ∧
    BitsOkOn ((List.finRange 7).take p.num_bits)
      (fun idx => (p.sendLevel v).toNat.testBit idx.val) (p.sendBits v).1 := by
  obtain ⟨h1, h2, h3, h4, h5, h6, h7⟩ :=
    foldl_bitStep_state (fun idx => (p.sendLevel v).toNat.testBit idx.val)
      ((List.finRange 7).take p.num_bits) p []
  refine ⟨h1, h2, h3, h4, h5, ?_, h7⟩
  refine h6 7 fun idx _ hcast => ?_
  have hlt : idx.castSucc < Fin.last 7 := Fin.castSucc_lt_last idx
  rw [show (7 : Fin 8) = Fin.last 7 from rfl] at hcast
  exact absurd hcast (ne_of_lt hlt)

theorem sendLevel_congr {p q : MysteryParam} (v : ℚ)
    (hneg : q.neg_address = p.neg_address) (hnb : q.num_bits = p.num_bits) :
    q.sendLevel v = p.sendLevel v := by
  unfold sendLevel sendMagnitude
  rw [hneg, hnb]

/-- Claim C1 (amended): re-sending the exact same value through a
`ParameterBinding` is silent — after `send(v)`, a second `send(v)` appends no
message at all (no main-float, no sign, no bit message). -/
theorem send_resend_silent (p : MysteryParam) (v : ℚ) :
    ((p.send v).1.send v).2 = [] := by
  obtain ⟨m1, m2, m3, m4, m5⟩ := sendMain_state p v
  obtain ⟨n1, n2, n3, n4, n5, n6⟩ := sendNeg_state (p.sendMain v).1 v
  obtain ⟨b1, b2, b3, b4, b5, b6, b7⟩ := sendBits_state ((p.sendMain v).1.sendNeg v).1 v
  have hq : (p.send v).1 = (((p.sendMain v).1.sendNeg v).1.sendBits v).1 := rfl
  set q := (((p.sendMain v).1.sendNeg v).1.sendBits v).1 with hqdef
  -- the main channel is settled for `v`
  have hmain : MainOk q v := by
    rcases sendMain_post p v with h | h
    · exact Or.inl (by rw [b1, n1, h])
    · refine Or.inr ?_
      rw [b5, n5]
      exact h
  -- the sign channel is settled for `v`
  have hneg : NegOk q v := by
    rcases sendNeg_post (p.sendMain v).1 v with h | h
    · exact Or.inl (by rw [b2, h])
    · exact Or.inr (by rw [b6, h])
  -- the bit channels are settled for `v`
  have hlevel : q.sendLevel v = (((p.sendMain v).1.sendNeg v).1).sendLevel v :=
    sendLevel_congr v b2 b4
  have hbits : BitsOkOn ((List.finRange 7).take q.num_bits)
      (fun idx => (q.sendLevel v).toNat.testBit idx.val) q := by
    rw [b4, hlevel]
    exact b7
  -- the second send is therefore silent in all three stages
  rw [hq]
  show ((q.sendMain v).2 ++ ((q.sendMain v).1.sendNeg v).2 ++
      (((q.sendMain v).1.sendNeg v).1.sendBits v).2) = []
  rw [sendMain_of_mainOk hmain]
  rw [sendNeg_of_negOk hneg]
  rw [sendBits_of_ok hbits]
  rfl

end MysteryParam

/-- A binding with only a main float address, as created by the resolver for a
plain float parameter, with last transmitted value 0. -/
def floatOnlyBinding : MysteryParam :=
  { name := "JawOpen", main_address := some "JawOpen", addresses := fun _ => none,
    neg_address := none, num_bits := 0, last_value := 0, last_bits := fun _ => false }

/-- Claim C1 (counterexample): two consecutive sends 0.008 then 0.016 differ by
0.008 ≤ 0.01, yet the second send emits a message — the first send was
suppressed, so `last_value` still holds 0 and the second delta is 0.016 > 0.01. -/
theorem send_suppression_not_idempotent :
    |(16 / 1000 : ℚ) - 8 / 1000| ≤ 1 / 100 ∧
    ((floatOnlyBinding.send (8 / 1000)).1.send (16 / 1000)).2 ≠ [] := by
  constructor
  · rw [abs_of_nonneg (by norm_num)]
    norm_num
  · norm_num [floatOnlyBinding, MysteryParam.send, MysteryParam.sendMain,
      MysteryParam.sendNeg, MysteryParam.sendBits, abs_of_nonneg]

/-- A 3-bit binding without sign or main channel, as the resolver creates for
leaves `X1`, `X2`, `X4`. -/
def threeBitBinding : MysteryParam :=
  { name := "X", main_address := none,
    addresses := fun idx => if idx.val < 3 then some ("X" ++ toString idx.val) else none,
    neg_address := none, num_bits := 3, last_value := 0, last_bits := fun _ => false }

/-- Claim C3 (counterexample): quantization truncates instead of rounding —
sending 0.5 on a 3-bit binding yields level ⌊3.5⌋ = 3, not round(3.5) = 4; and
an input above 1 escapes the claimed range: sending 2.0 yields level 14 > 2³-1. -/
theorem sendLevel_not_round_not_bounded :
    threeBitBinding.sendLevel (1 / 2) = 3 ∧ round ((1 / 2 : ℚ) * (2 ^ 3 - 1)) = 4 ∧
    threeBitBinding.sendLevel 2 = 14 ∧ ¬(threeBitBinding.sendLevel 2 ≤ 2 ^ 3 - 1) := by
  refine ⟨?_, ?_, ?_, ?_⟩
  · norm_num [threeBitBinding, MysteryParam.sendLevel, MysteryParam.sendMagnitude, truncToZero]
  · norm_num [round_eq]
  · norm_num [threeBitBinding, MysteryParam.sendLevel, MysteryParam.sendMagnitude, truncToZero]
  · norm_num [threeBitBinding, MysteryParam.sendLevel, MysteryParam.sendMagnitude, truncToZero]

/-- Claim C3 (amended): after sign handling the magnitude is quantized by
truncation toward zero, `level = ⌊magnitude * (2^num_bits - 1)⌋`; the level is
always ≥ 0, and it lies in `[0, 2^num_bits - 1]` whenever the post-sign
magnitude is at most 1 (which holds for all in-range expression values). -/
theorem sendLevel_trunc_bounds (p : MysteryParam) (v : ℚ) :
    p.sendLevel v = ⌊p.sendMagnitude v * ((2 ^ p.num_bits - 1 : ℤ) : ℚ)⌋ ∧
    0 ≤ p.sendLevel v ∧
    (p.sendMagnitude v ≤ 1 → p.sendLevel v ≤ 2 ^ p.num_bits - 1) := by
  have hmag : 0 ≤ p.sendMagnitude v := by
    unfold MysteryParam.sendMagnitude
    split
    · exact abs_nonneg v
    · split
      · exact le_refl 0
      · exact le_of_not_lt (by assumption)
  have hpow : (0 : ℚ) ≤ ((2 ^ p.num_bits - 1 : ℤ) : ℚ) := by
    have : (1 : ℤ) ≤ 2 ^ p.num_bits := one_le_pow₀ (by norm_num)
    exact_mod_cast sub_nonneg.mpr this
  have hprod : 0 ≤ p.sendMagnitude v * ((2 ^ p.num_bits - 1 : ℤ) : ℚ) :=
    mul_nonneg hmag hpow
  have heq : p.sendLevel v = ⌊p.sendMagnitude v * ((2 ^ p.num_bits - 1 : ℤ) : ℚ)⌋ := by
    unfold MysteryParam.sendLevel truncToZero
    rw [if_pos hprod]
  refine ⟨heq, ?_, ?_⟩
  · rw [heq]
    exact Int.le_floor.mpr (by exact_mod_cast hprod)
  · intro hle
    rw [heq]
    calc ⌊p.sendMagnitude v * ((2 ^ p.num_bits - 1 : ℤ) : ℚ)⌋
        ≤ ⌊((2 ^ p.num_bits - 1 : ℤ) : ℚ)⌋ :=
          Int.floor_le_floor (by nlinarith)
      _ = 2 ^ p.num_bits - 1 := Int.floor_intCast _

/-- Witness for the amended C3 theorem at a concrete binding and value:
sending 0.75 on the 3-bit binding gives level ⌊0.75·7⌋ = 5 ∈ [0,7]. -/
theorem sendLevel_trunc_bounds_witness :
    threeBitBinding.sendLevel (3 / 4) =
        ⌊threeBitBinding.sendMagnitude (3 / 4) * ((2 ^ threeBitBinding.num_bits - 1 : ℤ) : ℚ)⌋ ∧
    0 ≤ threeBitBinding.sendLevel (3 / 4) ∧
    (threeBitBinding.sendMagnitude (3 / 4) ≤ 1 →
      threeBitBinding.sendLevel (3 / 4) ≤ 2 ^ threeBitBinding.num_bits - 1) :=
  sendLevel_trunc_bounds threeBitBinding (3 / 4)

/-! ## Schema resolution (`OscJsonNode`, `ExtTracking::osc_json`) -/

/-- `OscJsonNode` from `ext_oscjson.rs`: one node of the host-declared OSC
address tree.  `contents` is `none` for a leaf; a branch holds its child map
as an association list (the Rust `HashMap` keyed by child name). -/
inductive OscJsonNode where
  | mk (full_path : String) (access : Int) (data_type : Option String)
      (contents : Option (List (String × OscJsonNode)))

namespace OscJsonNode

def full_path : OscJsonNode → String
  | mk fp _ _ _ => fp

def access : OscJsonNode → Int
  | mk _ a _ _ => a

def data_type : OscJsonNode → Option String
  | mk _ _ dt _ => dt

def contents : OscJsonNode → Option (List (String × OscJsonNode))
  | mk _ _ _ c => c

/-- Lookup of one child by name in a child map (the `HashMap::get` of the
source; keys are unique in a `HashMap`, the embedding takes the first hit). -/
def lookupChild : List (String × OscJsonNode) → String → Option OscJsonNode
  | [], _ => none
  | (k, c) :: rest, part => if k = part then some c else lookupChild rest part

/-- `OscJsonNode::get` (lines 180-190 of `ext_oscjson.rs`) with the path
pre-split at `/`: walk down the child maps part by part; a leaf (no contents)
rejects any remaining part. -/
def getPath : OscJsonNode → List String → Option OscJsonNode
  | node, [] => some node
  | node, part :: rest =>
      match node.contents with
      | some children =>
          match lookupChild children part with
          | some child => getPath child rest
          | none => none
      | none => none

/-- `OscJsonNode::has_vsync` (lines 194-198 of `ext_oscjson.rs`). -/
def has_vsync (n : OscJsonNode) : Bool :=
  ((n.getPath ["parameters"]).bind (fun parameters => parameters.getPath ["VSync"])).isSome

end OscJsonNode

/-- Result of matching a leaf name against the resolver's pattern
`^(.+?)(Negative|[0-9]+)?$`: the base name plus the captured suffix kind. -/
inductive NameSuffix where
  | bare
  | negative
  | digits (d : ℕ)
  deriving DecidableEq

/-- Decimal value of a digit string (the digit suffix is parsed as `f32` in
the source; for the digit counts arising here that parse is exact). -/
def digitsVal (l : List Char) : ℕ :=
  l.foldl (fun acc c => 10 * acc + (c.toNat - 48)) 0

/-- The lazy regex `^(.+?)(Negative|[0-9]+)?$` of `process_node_recursive`:
group 1 takes the shortest nonempty prefix whose remainder is empty, the
literal `Negative`, or a nonempty digit string. -/
def parseName (s : String) : Option (String × NameSuffix) :=
  ((List.range s.length).map (· + 1)).findSome? fun i =>
    let rest := s.drop i
    if rest = "" then some (s.take i, NameSuffix.bare)
    else if rest = "Negative" then some (s.take i, NameSuffix.negative)
    else if rest.toList.all Char.isDigit then
      some (s.take i, NameSuffix.digits (digitsVal rest.toList))
    else none

/-- The resolver's binding table `params: [Option<MysteryParam>; NUM_SHAPES]`,
as a total map from shape index; the vocabulary size is irrelevant to the
properties below. -/
def ParamsTable := ℕ → Option MysteryParam

/-- The fresh binding created on first match (lines 246-254 of
`ext_tracking/mod.rs`). -/
def freshParam (base : String) : MysteryParam :=
  { name := base, main_address := none, addresses := fun _ => none,
    neg_address := none, num_bits := 0, last_value := 0, last_bits := fun _ => false }

/-- The wire address stored for a leaf: its full path with the
`/avatar/parameters/` prefix (19 characters) stripped. -/
def leafAddr (node : OscJsonNode) : String :=
  node.full_path.drop 19

/-- Leaf handling of `process_node_recursive` (lines 220-277 of
`ext_tracking/mod.rs`).  `vocab` is the semantic-identifier lookup
(`UnifiedExpressions`/`CombinedExpression`/`SRanipalExpression::from_str`,
vocabulary data external to the embedded core).  The digit suffix is turned
into a bit index via its base-2 logarithm and written to the 7-slot
`addresses` array; an index ≥ 7 is the source's out-of-bounds panic, embedded
as `none`. -/
def processLeaf (vocab : String → Option ℕ) (table : ParamsTable) (name : String)
    (node : OscJsonNode) : Option ParamsTable :=
  match parseName name with
  | none => some table
  | some (base, suffix) =>
      match vocab base with
      | none => some table
      | some idx =>
          let stored := match table idx with
            | some p => p
            | none => freshParam base
          match suffix with
          | NameSuffix.negative =>
              some (Function.update table idx
                (some { stored with neg_address := some (leafAddr node) }))
          | NameSuffix.digits d =>
              let bidx := Nat.log2 d
              if h : bidx < 7 then
                some (Function.update table idx
                  (some { stored with
                    num_bits := max stored.num_bits (bidx + 1),
                    addresses := Function.update stored.addresses ⟨bidx, h⟩
                      (some (leafAddr node)) }))
              else none
          | NameSuffix.bare =>
              some (Function.update table idx
                (some { stored with main_address := some (leafAddr node) }))

mutual

/-- `ExtTracking::process_node_recursive` (lines 205-279): recurse through
branches, hand leaves to `processLeaf`; `none` is a propagated panic. -/
def processNodeRecursive (vocab : String → Option ℕ) (table : ParamsTable)
    (name : String) : OscJsonNode → Option ParamsTable
  | OscJsonNode.mk fp ac dt (some children) =>
      processChildren vocab table children
  | OscJsonNode.mk fp ac dt none =>
      processLeaf vocab table name (OscJsonNode.mk fp ac dt none)

/-- The `for (name, node) in contents.iter()` loop: thread the table through
the children in order (`let _ =` in the source discards the early-exit marker
but keeps the state mutations; a panic still propagates). -/
def processChildren (vocab : String → Option ℕ) (table : ParamsTable) :
    List (String × OscJsonNode) → Option ParamsTable
  | [] => some table
  | (n, c) :: rest =>
      match processNodeRecursive vocab table n c with
      | some t2 => processChildren vocab t2 rest
      | none => none

end

/-- `ExtTracking::osc_json` (lines 190-202 of `ext_tracking/mod.rs`): clear
every binding, then resolve; a tree without a `parameters` branch aborts with
a warning right after the clearing.  `none` is a propagated panic. -/
def osc_json (vocab : String → Option ℕ) (table : ParamsTable)
    (avatar_node : OscJsonNode) : Option ParamsTable :=
  let cleared : ParamsTable := fun _ => none
  match avatar_node.getPath ["parameters"] with
  | none => some cleared
  | some parameters => processNodeRecursive vocab cleared "parameters" parameters

/-- Claim C2 (amended): if the supplied schema tree has no `parameters`
branch, resolution aborts with a warning, but only after the binding table
has already been cleared — after the call every binding is `None`; the
pre-call table is NOT retained. -/
theorem osc_json_missing_branch_clears (vocab : String → Option ℕ)
    (table : ParamsTable) (root : OscJsonNode)
    (h : root.getPath ["parameters"] = none) :
    osc_json vocab table root = some (fun _ => none) := by
  unfold osc_json
  rw [h]

/-- A schema tree whose root has children but no `parameters` branch. -/
def rootWithoutParameters : OscJsonNode :=
  OscJsonNode.mk "/avatar" 0 none
    (some [("ft", OscJsonNode.mk "/avatar/ft" 0 none none)])

/-- A pre-call binding table holding one live binding at every index. -/
def preCallTable : ParamsTable := fun _ => some (freshParam "JawOpen")

/-- Witness for the amended C2 theorem: on a concrete nonempty table and a
concrete tree without a `parameters` branch, the call returns the all-`None`
table. -/
theorem osc_json_missing_branch_clears_witness :
    osc_json (fun _ => none) preCallTable rootWithoutParameters = some (fun _ => none) :=
  osc_json_missing_branch_clears (fun _ => none) preCallTable rootWithoutParameters rfl

/-- Claim C2 (counterexample): with a binding present before the call and a
tree without a `parameters` branch, the table after the call is all-`None`,
not the pre-call table — stale bindings are dropped, not retained. -/
theorem osc_json_missing_branch_not_retaining :
    osc_json (fun _ => none) preCallTable rootWithoutParameters = some (fun _ => none) ∧
    osc_json (fun _ => none) preCallTable rootWithoutParameters ≠ some preCallTable := by
  refine ⟨rfl, fun h => ?_⟩
  have h2 : (fun _ => (none : Option MysteryParam)) = preCallTable :=
    Option.some.inj ((rfl :
      osc_json (fun _ => none) preCallTable rootWithoutParameters =
        some (fun _ => none)).symm.trans h)
  have h0 := congrFun h2 0
  simp [preCallTable] at h0

/-- Claim C10 (confirmed): the resolver's leaf update is not total for
over-wide bit weights.  For a leaf matching a known base followed by a digit
string of value `d`: if `d ≥ 128` (base-2 logarithm ≥ 7) the update indexes
the 7-slot bit-address array out of bounds — the embedded total version
returns `none` (the source panics) instead of rejecting the binding with an
error; if `d < 128` the index is in bounds and `num_bits` stays at most 7
(given it was at most 7 before). -/
theorem processLeaf_digit_weight_bounds (vocab : String → Option ℕ)
    (table : ParamsTable) (name base : String) (d idx : ℕ) (node : OscJsonNode)
    (hparse : parseName name = some (base, NameSuffix.digits d))
    (hvocab : vocab base = some idx)
    (hold : ∀ p, table idx = some p → p.num_bits ≤ 7) :
    (128 ≤ d → processLeaf vocab table name node = none) ∧
    (d < 128 → Nat.log2 d < 7 ∧ ∃ t2 p2,
      processLeaf vocab table name node = some t2 ∧ t2 idx = some p2 ∧
      p2.num_bits ≤ 7) := by
  constructor
  · intro hd
    have hlog : ¬ Nat.log2 d < 7 := by
      intro hlt
      have := (Nat.log2_lt (by omega)).mp hlt
      norm_num at this
      omega
    simp only [processLeaf, hparse, hvocab]
    rw [dif_neg hlog]
  · intro hd
    have hlog : Nat.log2 d < 7 := by
      rcases Nat.eq_zero_or_pos d with rfl | hpos
      · simp [Nat.log2]
      · exact (Nat.log2_lt (by omega)).mpr (by norm_num; omega)
    refine ⟨hlog, ?_⟩
    simp only [processLeaf, hparse, hvocab]
    rw [dif_pos hlog]
    refine ⟨_, _, rfl, Function.update_same _ _ _, ?_⟩
    have hstored : (match table idx with
        | some p => p
        | none => freshParam base).num_bits ≤ 7 := by
      cases ht : table idx with
      | some p => exact hold p ht
      | none => simp [freshParam]
    simp only [max_le_iff]
    exact ⟨hstored, by omega⟩

/-- A one-entry vocabulary binding the base name `EyeLidLeft` to index 0, and
an empty binding table, for the C10 witness. -/
def eyeLidVocab : String → Option ℕ :=
  fun s => if s = "EyeLidLeft" then some 0 else none

/-- A concrete schema leaf for the C10 witness. -/
def eyeLidLeaf128 : OscJsonNode :=
  OscJsonNode.mk "/avatar/parameters/EyeLidLeft128" 0 (some "Bool") none

/-- Witness for the C10 theorem at the concrete leaf name `EyeLidLeft128`
(weight 128 = 2^7, bit index 7, out of bounds) on an empty table. -/
theorem processLeaf_digit_weight_bounds_witness :
    (128 ≤ 128 →
      processLeaf eyeLidVocab (fun _ => none) "EyeLidLeft128" eyeLidLeaf128 = none) ∧
    (128 < 128 → Nat.log2 128 < 7 ∧ ∃ t2 p2,
      processLeaf eyeLidVocab (fun _ => none) "EyeLidLeft128" eyeLidLeaf128 = some t2 ∧
      t2 0 = some p2 ∧ p2.num_bits ≤ 7) :=
  processLeaf_digit_weight_bounds eyeLidVocab (fun _ => none) "EyeLidLeft128"
    "EyeLidLeft" 128 0 eyeLidLeaf128 (by decide) rfl (fun p h => Option.noConfusion h)

/-! ## Autopilot manual mode (`ExtAutoPilot::step`, lines 108-181) -/

/-- The cross-tick autopilot state (`ExtAutoPilot` fields used by manual
mode; `last_sent` is the glam `Vec3` whose x/y/z components hold the last
sent LookHorizontal/Vertical/Horizontal axes). -/
structure APState where
  voice : Bool
  voice_lock : Bool
  jumped : Bool
  last_sent_x : ℚ
  last_sent_y : ℚ
  last_sent_z : ℚ
  deriving DecidableEq

/-- The initial autopilot state (`ExtAutoPilot::new`). -/
def apInit : APState :=
  { voice := false, voice_lock := false, jumped := false,
    last_sent_x := 0, last_sent_y := 0, last_sent_z := 0 }

/-- One eye-gaze sample (`tracking.data.eyes[0]`), a glam `Vec3`. -/
structure Gaze where
  x : ℚ
  y : ℚ
  z : ℚ
  deriving DecidableEq

/-- The jump block of manual mode (lines 119-125): press on gaze above 0.4
when not pressed, otherwise release whenever pressed — the release branch
does not re-check the gaze. Returns (messages, new jumped flag). -/
def jumpStep (jumped : Bool) (e : Gaze) : List OscMsg × Bool :=
  if e.y > 2 / 5 ∧ jumped = false then ([inputButtonMsg "Jump" true], true)
  else if jumped = true then ([inputButtonMsg "Jump" false], false)
  else ([], jumped)

/-- The voice block of manual mode (lines 142-158): release the lock when the
brow sum drops below 2.0, then toggle. Returns (messages, voice, lock). -/
def voiceStep (voice voice_lock : Bool) (brows : ℚ) : List OscMsg × Bool × Bool :=
  let lock1 := if brows < 2 then false else voice_lock
  if brows > 3 ∧ voice = false then ([inputButtonMsg "Voice" true], true, true)
  else if voice = true ∧ lock1 = false then ([inputButtonMsg "Voice" false], false, lock1)
  else ([], voice, lock1)

/-- One axis send of lines 167-180: emit when moved by more than 0.01 from
the last sent component. Returns (messages, new last-sent component). -/
def axisStep (name : String) (value last : ℚ) : List OscMsg × ℚ :=
  if |value - last| > 1 / 100 then ([inputAxisMsg name value], value) else ([], last)

/-- Manual-mode step of `ExtAutoPilot::step` (the `AutoPilot` branch, lines
108-159, followed by the axis block, lines 167-180), for a tick on which no
Follow flag is set, `AutoPilot` is true and the flight mechanic is inactive
(no `VRCEmote` value).  Inputs: the optional first eye sample and the summed
cheek-puff, cheek-suck and brow expressions. Returns the new state and the
messages pushed, in push order. -/
def manualStep (st : APState) (eye : Option Gaze) (puff suck brows : ℚ) :
    APState × List OscMsg :=
  let look_horizontal : ℚ :=
    match eye with
    | some e => if ¬(-(3 / 5) ≤ e.z ∧ e.z ≤ 1 / 2) then -e.z else 0
    | none => 0
  let jump :=
    match eye with
    | some e => jumpStep st.jumped e
    | none => ([], st.jumped)
  let vertical : ℚ :=
    if puff > 1 / 2 then min (puff * (3 / 5)) 1
    else if suck > 1 / 2 then -(min (suck * (3 / 5)) 1)
    else 0
  let voice := voiceStep st.voice st.voice_lock brows
  let ax := axisStep "LookHorizontal" look_horizontal st.last_sent_x
  let ay := axisStep "Vertical" vertical st.last_sent_y
  let az := axisStep "Horizontal" 0 st.last_sent_z
  ({ voice := voice.2.1, voice_lock := voice.2.2, jumped := jump.2,
     last_sent_x := ax.2, last_sent_y := ay.2, last_sent_z := az.2 },
   jump.1 ++ voice.1 ++ ax.1 ++ ay.1 ++ az.1)

/-- Voice-state trace: iterate `manualStep` over a brow-sum sequence (no eye
data, neutral cheeks) and record the voice flag after each tick. -/
def voiceTrace (st : APState) : List ℚ → List Bool
  | [] => []
  | b :: rest =>
      ((manualStep st none 0 0 b).1).voice ::
        voiceTrace ((manualStep st none 0 0 b).1) rest

/-- Voice-and-lock trace: like `voiceTrace` but recording (voice, lock) after
each tick. -/
def voiceLockTrace (st : APState) : List ℚ → List (Bool × Bool)
  | [] => []
  | b :: rest =>
      (((manualStep st none 0 0 b).1).voice, ((manualStep st none 0 0 b).1).voice_lock) ::
        voiceLockTrace ((manualStep st none 0 0 b).1) rest

/-- Claim C4 (counterexample): the brow-sum sequence 3.5, 2.5, 1.5, 1.5 from
the initial state yields the voice trace on, on, off, off — the third tick
already turns the voice off, because the lock is released before the voice-off
check within the same tick; the claimed trace on, on, on, off is wrong. -/
theorem voice_turns_off_on_release_tick :
    voiceTrace apInit [7/2, 5/2, 3/2, 3/2] = [true, true, false, false] ∧
    voiceTrace apInit [7/2, 5/2, 3/2, 3/2] ≠ [true, true, true, false] := by
  constructor
  · norm_num [voiceTrace, manualStep, voiceStep, jumpStep, axisStep, apInit]
  · intro h
    rw [show voiceTrace apInit [7/2, 5/2, 3/2, 3/2] = [true, true, false, false] by
      norm_num [voiceTrace, manualStep, voiceStep, jumpStep, axisStep, apInit]] at h
    simp at h

theorem manualStep_voice (st : APState) (eye : Option Gaze) (puff suck brows : ℚ) :
    ((manualStep st eye puff suck brows).1).voice =
      (voiceStep st.voice st.voice_lock brows).2.1 := rfl

/-- Claim C4 (amended): the sequence 3.5, 2.5, 1.5, 1.5 yields voice/lock
on(locked), on(still locked), off(lock released and voice dropped within the
same tick), off.  Crossing 2.5 (below 3.0, lock still armed) never turns the
voice off; but the release by a value below 2.0 takes effect in the same
tick, not the one after. -/
theorem voice_hysteresis_trace :
    voiceLockTrace apInit [7/2, 5/2, 3/2, 3/2] =
      [(true, true), (true, true), (false, false), (false, false)] ∧
    (∀ (st : APState) (b : ℚ), st.voice = true → st.voice_lock = true → 2 ≤ b →
      ((manualStep st none 0 0 b).1).voice = true) := by
  constructor
  · norm_num [voiceLockTrace, manualStep, voiceStep, jumpStep, axisStep, apInit]
  · intro st b hv hl hb
    rw [manualStep_voice, hv, hl]
    simp only [voiceStep, if_neg (not_lt.mpr hb)]
    by_cases hgt : b > 3 ∧ True = false
    · simp at hgt
    · simp

/-- An eye sample gazing straight up: vertical component 0.5 > 0.4, horizontal
component inside the deadzone. -/
def gazeUp : Gaze := { x := 0, y := 1 / 2, z := 0 }

/-- Claim C7 (counterexample): with the gaze condition holding on two
consecutive ticks, the Jump button is pressed on the first tick but RELEASED
on the second — the release branch fires whenever the button is pressed,
without re-checking the gaze, so the button does not stay pressed while the
condition continues to hold. -/
theorem jump_released_while_condition_holds :
    (manualStep apInit (some gazeUp) 0 0 0).2 = [inputButtonMsg "Jump" true] ∧
    ((manualStep apInit (some gazeUp) 0 0 0).1).jumped = true ∧
    (manualStep ((manualStep apInit (some gazeUp) 0 0 0).1) (some gazeUp) 0 0 0).2 =
      [inputButtonMsg "Jump" false] ∧
    ((manualStep ((manualStep apInit (some gazeUp) 0 0 0).1) (some gazeUp) 0 0 0).1).jumped
      = false := by
  refine ⟨?_, ?_, ?_, ?_⟩ <;>
    norm_num [manualStep, voiceStep, jumpStep, axisStep, apInit, gazeUp]

theorem manualStep_jumped (st : APState) (e : Gaze) (puff suck brows : ℚ) :
    ((manualStep st (some e) puff suck brows).1).jumped = (jumpStep st.jumped e).2 := rfl

/-- Claim C7 (amended): in manual mode with eye data present, the Jump button
is pressed exactly when the gaze condition holds and the button is not
already pressed, and it is released on every tick on which it is pressed —
even if the gaze condition still holds — so under a sustained gaze the button
alternates pressed/released each tick instead of staying pressed; with the
condition false and the button not pressed, nothing is sent. -/
theorem jump_press_release_alternates (st : APState) (e : Gaze)
    (puff suck brows : ℚ) :
    ((manualStep st (some e) puff suck brows).1).jumped =
      (decide (e.y > 2 / 5) && !st.jumped) ∧
    (st.jumped = true → jumpStep st.jumped e = ([inputButtonMsg "Jump" false], false)) ∧
    (e.y > 2 / 5 ∧ st.jumped = false →
      jumpStep st.jumped e = ([inputButtonMsg "Jump" true], true)) ∧
    (¬(e.y > 2 / 5) ∧ st.jumped = false → jumpStep st.jumped e = ([], false)) := by
  refine ⟨?_, ?_, ?_, ?_⟩
  · rw [manualStep_jumped]
    by_cases he : e.y > 2 / 5 <;> cases hj : st.jumped <;>
      simp [jumpStep, he, hj, -one_div]
  · intro hj
    simp [jumpStep, hj]
  · intro ⟨he, hj⟩
    simp [jumpStep, he, hj, -one_div]
  · intro ⟨he, hj⟩
    simp [jumpStep, he, hj, -one_div]

/-! ## Outbound chunking (`AvatarOsc::process`, lines 319-348 of `core/mod.rs`) -/

/-- One entry of `bundle.content` (`rosc::OscPacket`): a single message, or an
already-framed nested bundle (whose payload the chunking code never
inspects). -/
inductive WirePacket where
  | message (msg : OscMsg)
  | nested
  deriving DecidableEq

/-- `slice::chunks(n)` with explicit fuel (the fuel is the list length, so the
recursion is structural and the function evaluates by `rfl`). -/
def chunksGo (n : ℕ) : ℕ → List WirePacket → List (List WirePacket)
  | 0, _ => []
  | _ + 1, [] => []
  | fuel + 1, x :: xs => (x :: xs).take n :: chunksGo n fuel ((x :: xs).drop n)

/-- `bundle.content.chunks(30)`-style grouping: consecutive groups of at most
`n` elements. -/
def chunksOf (n : ℕ) (l : List WirePacket) : List (List WirePacket) :=
  chunksGo n l.length l

/-- The send phase of `AvatarOsc::process` (lines 319-345): if the first
entry is a single message it is encoded and sent standalone and removed from
the batch; the remainder is sent in chunks of at most 30 entries, one bundle
per chunk.  Returns the sequence of wire packets, each as its entry list. -/
def processSend (content : List WirePacket) : List (List WirePacket) :=
  match content with
  | WirePacket.message m :: rest => [WirePacket.message m] :: chunksOf 30 rest
  | _ => chunksOf 30 content

theorem chunksGo_join (n : ℕ) (hn : 1 ≤ n) :
    ∀ (fuel : ℕ) (l : List WirePacket), l.length ≤ fuel →
      (chunksGo n fuel l).join = l := by
  intro fuel
  induction fuel with
  | zero =>
      intro l hl
      rw [List.length_eq_zero.mp (Nat.le_zero.mp hl)]
      rfl
  | succ fuel ih =>
      intro l hl
      cases l with
      | nil => rfl
      | cons x xs =>
          show ((x :: xs).take n) ++ (chunksGo n fuel ((x :: xs).drop n)).join = x :: xs
          rw [ih ((x :: xs).drop n) (by
            rw [List.length_drop, List.length_cons]
            simp only [List.length_cons] at hl
            omega)]
          exact List.take_append_drop n (x :: xs)

theorem chunksGo_bounded (n : ℕ) (hn : 1 ≤ n) :
    ∀ (fuel : ℕ) (l : List WirePacket), l.length ≤ fuel →
      ∀ g ∈ chunksGo n fuel l, g.length ≤ n ∧ g ≠ [] := by
  intro fuel
  induction fuel with
  | zero =>
      intro l hl g hg
      rw [List.length_eq_zero.mp (Nat.le_zero.mp hl)] at hg
      exact absurd hg (List.not_mem_nil g)
  | succ fuel ih =>
      intro l hl g hg
      cases l with
      | nil => exact absurd hg (List.not_mem_nil g)
      | cons x xs =>
          rcases List.mem_cons.mp hg with rfl | hmem
          · constructor
            · simpa using List.length_take_le n (x :: xs)
            · cases hn' : n with
              | zero => omega
              | succ m => simp
          · refine ih ((x :: xs).drop n) (by
              rw [List.length_drop, List.length_cons]
              simp only [List.length_cons] at hl
              omega) g hmem

theorem chunksOf_join (l : List WirePacket) : (chunksOf 30 l).join = l :=
  chunksGo_join 30 (by norm_num) l.length l le_rfl

theorem chunksOf_bounded (l : List WirePacket) :
    ∀ g ∈ chunksOf 30 l, g.length ≤ 30 ∧ g ≠ [] :=
  chunksGo_bounded 30 (by norm_num) l.length l le_rfl

/-- A batch of 65 single messages, as produced by 65 parameter sends in one
tick. -/
def batch65 : List WirePacket :=
  List.replicate 65 (WirePacket.message (sendParameterMsg "FT" (OscVal.bool true)))

/-- A batch of 65 entries whose first entry is an already-framed bundle, so
that nothing qualifies for standalone priority extraction. -/
def batch65nested : List WirePacket :=
  WirePacket.nested ::
    List.replicate 64 (WirePacket.message (sendParameterMsg "FT" (OscVal.bool true)))

/-- Claim C8 (counterexample): a batch of 65 messages does NOT yield 3 packets
of sizes 30, 30, 5 — the first message is always extracted and sent
standalone (a message first entry always qualifies), leaving 64 to chunk:
the wire packets have sizes 1, 30, 30, 4. -/
theorem chunking_65_messages_actual :
    batch65.length = 65 ∧
    (processSend batch65).map List.length = [1, 30, 30, 4] ∧
    (processSend batch65).map List.length ≠ [30, 30, 5] := by
  refine ⟨rfl, rfl, ?_⟩
  intro h
  have h2 : ([1, 30, 30, 4] : List ℕ) = [30, 30, 5] :=
    ((rfl : (processSend batch65).map List.length = [1, 30, 30, 4]).symm).trans h
  exact absurd h2 (by decide)

/-- Claim C8 (amended): after priority extraction the remaining batch is
partitioned into consecutive groups of at most 30 messages, each sent as one
packet, and no wire packet ever exceeds 30 entries; every sent group is
nonempty and the groups concatenate back to the batch.  A batch of 65
messages has its first message extracted standalone and yields 4 wire packets
of sizes 1, 30, 30, 4; a 65-entry batch whose first entry is already a framed
bundle (so that nothing is extracted) yields 3 packets of sizes 30, 30, 5. -/
theorem processSend_chunks_bounded (content : List WirePacket) :
    (processSend content).join = content ∧
    (∀ g ∈ processSend content, g.length ≤ 30 ∧ g ≠ []) ∧
    (processSend batch65).map List.length = [1, 30, 30, 4] ∧
    (processSend batch65nested).map List.length = [30, 30, 5] := by
  refine ⟨?_, ?_, rfl, rfl⟩
  · match content with
    | WirePacket.message m :: rest =>
        show WirePacket.message m :: (chunksOf 30 rest).join = WirePacket.message m :: rest
        rw [chunksOf_join]
    | [] => rfl
    | WirePacket.nested :: rest =>
        show (chunksOf 30 (WirePacket.nested :: rest)).join = WirePacket.nested :: rest
        rw [chunksOf_join]
  · match content with
    | WirePacket.message m :: rest =>
        intro g hg
        rcases List.mem_cons.mp hg with rfl | hmem
        · exact ⟨by norm_num, by simp⟩
        · exact chunksOf_bounded rest g hmem
    | [] => intro g hg; exact absurd hg (List.not_mem_nil g)
    | WirePacket.nested :: rest =>
        intro g hg
        exact chunksOf_bounded (WirePacket.nested :: rest) g hg

/-! ## Drive scheduling (`AvatarOsc::avatar`, lines 241-283, and the
self-timer thread, lines 156-167 of `core/mod.rs`) -/

/-- The drive flag stored by `AvatarOsc::avatar` after a (re)load:
`!osc_root_node.is_some_and(|n| n.has_vsync())`. `true` is `SelfDriven`,
`false` is `ExternallyDriven`. -/
def avatarSelfDrive (osc_root_node : Option OscJsonNode) : Bool :=
  !(match osc_root_node with
    | some n => n.has_vsync
    | none => false)

/-- The self-timer thread: it manufactures a synthetic tick (the loopback
send) exactly when the drive flag is set; otherwise it only sleeps. -/
def timerEmitsTick (self_drive : Bool) : Bool :=
  self_drive

/-- Claim C9 (confirmed): on every avatar (re)load with a schema that
resolves, the scheduling mode is set from the fresh schema: `has_vsync` holds
exactly when a `VSync` node sits under the `parameters` branch, and the mode
becomes externally driven (drive flag false, no synthetic ticks) iff that
capability is present, self-driven (drive flag true, synthetic ticks resume)
iff it is absent. -/
theorem avatar_drive_switch (n : OscJsonNode) :
    (n.has_vsync = ((n.getPath ["parameters"]).bind
      (fun parameters => parameters.getPath ["VSync"])).isSome) ∧
    (n.has_vsync = true → avatarSelfDrive (some n) = false ∧
      timerEmitsTick (avatarSelfDrive (some n)) = false) ∧
    (n.has_vsync = false → avatarSelfDrive (some n) = true ∧
      timerEmitsTick (avatarSelfDrive (some n)) = true) := by
  refine ⟨rfl, ?_, ?_⟩
  · intro h
    simp [avatarSelfDrive, timerEmitsTick, h]
  · intro h
    simp [avatarSelfDrive, timerEmitsTick, h]

/-! ## Multilateration solver (`trilaterate`, lines 227-273 of
`ext_autopilot.rs`)

The `glam::Vec3` float vectors are embedded over `ℝ` (the claims concern the
solver's mathematics; all quantities below are exactly representable in the
real model). -/

/-- `glam::Vec3`. -/
@[ext]
structure Vec3 where
  x : ℝ
  y : ℝ
  z : ℝ

namespace Vec3

def add (a b : Vec3) : Vec3 := ⟨a.x + b.x, a.y + b.y, a.z + b.z⟩

def sub (a b : Vec3) : Vec3 := ⟨a.x - b.x, a.y - b.y, a.z - b.z⟩

def smul (r : ℝ) (v : Vec3) : Vec3 := ⟨r * v.x, r * v.y, r * v.z⟩

def dot (a b : Vec3) : ℝ := a.x * b.x + a.y * b.y + a.z * b.z

def cross (a b : Vec3) : Vec3 :=
  ⟨a.y * b.z - a.z * b.y, a.z * b.x - a.x * b.z, a.x * b.y - a.y * b.x⟩

noncomputable def length (v : Vec3) : ℝ := Real.sqrt (v.dot v)

/-- `glam` normalize: the vector scaled by the reciprocal of its length. -/
noncomputable def normalize (v : Vec3) : Vec3 := smul v.length⁻¹ v

end Vec3

namespace Trilaterate

/-- The three fixed reference points (lines 236-238). -/
def P1 : Vec3 := ⟨1, 0, 0⟩

def P2 : Vec3 := ⟨0, 1, 0⟩

def P3 : Vec3 := ⟨0, 0, 1⟩

/- The locals of `trilaterate` (lines 244-253); they depend only on the fixed
reference points. -/

def p2_neg_p1 : Vec3 := P2.sub P1

def p3_neg_p1 : Vec3 := P3.sub P1

noncomputable def e_x : Vec3 := p2_neg_p1.normalize

noncomputable def i : ℝ := e_x.dot p3_neg_p1

noncomputable def e_y : Vec3 := (p3_neg_p1.sub (Vec3.smul i e_x)).normalize

noncomputable def e_z : Vec3 := e_x.cross e_y

noncomputable def d : ℝ := p2_neg_p1.length

noncomputable def j : ℝ := e_y.dot p3_neg_p1

/-- Line 257: `x = (r1_sq - r2*r2 + d*d) / (2*d)`. -/
noncomputable def x (r1 r2 : ℝ) : ℝ := (r1 * r1 - r2 * r2 + d * d) / (2 * d)

/-- Line 258: `y = ((r1_sq - r3*r3 + i*i + j*j) / (2*j)) - (i/j * x)`. -/
noncomputable def y (r1 r2 r3 : ℝ) : ℝ :=
  (r1 * r1 - r3 * r3 + i * i + j * j) / (2 * j) - (i / j) * x r1 r2

/-- Line 261: the non-negative root of the remaining coordinate. -/
noncomputable def z1 (r1 r2 r3 : ℝ) : ℝ :=
  Real.sqrt (r1 * r1 - x r1 r2 * x r1 r2 - y r1 r2 r3 * y r1 r2 r3)

/-- Line 262: `z2 = -1 * z1`, the mirror root. -/
noncomputable def z2 (r1 r2 r3 : ℝ) : ℝ := -1 * z1 r1 r2 r3

/-- Line 264: the first candidate point. -/
noncomputable def ans1 (r1 r2 r3 : ℝ) : Vec3 :=
  ((P1.add (Vec3.smul (x r1 r2) e_x)).add (Vec3.smul (y r1 r2 r3) e_y)).add
    (Vec3.smul (z1 r1 r2 r3) e_z)

/-- Line 265: the mirror candidate point. -/
noncomputable def ans2 (r1 r2 r3 : ℝ) : Vec3 :=
  ((P1.add (Vec3.smul (x r1 r2) e_x)).add (Vec3.smul (y r1 r2 r3) e_y)).add
    (Vec3.smul (z2 r1 r2 r3) e_z)

/-- `trilaterate` (lines 243-273): the branch `ans1.length() - r4 <
ans2.length() - r4` selects the returned candidate. -/
noncomputable def trilaterate (r1 r2 r3 r4 : ℝ) : Vec3 :=
  if (ans1 r1 r2 r3).length - r4 < (ans2 r1 r2 r3).length - r4 then ans1 r1 r2 r3
  else ans2 r1 r2 r3

end Trilaterate

namespace Trilaterate

theorem sqrt2_sq : Real.sqrt 2 * Real.sqrt 2 = 2 := Real.mul_self_sqrt (by norm_num)

theorem sqrt2_ne : Real.sqrt 2 ≠ 0 := by
  have := Real.sqrt_pos.mpr (show (0:ℝ) < 2 by norm_num)
  exact ne_of_gt this

theorem sqrt32_sq : Real.sqrt (3 / 2) * Real.sqrt (3 / 2) = 3 / 2 :=
  Real.mul_self_sqrt (by norm_num)

theorem sqrt32_ne : Real.sqrt (3 / 2) ≠ 0 := by
  have := Real.sqrt_pos.mpr (show (0:ℝ) < 3 / 2 by norm_num)
  exact ne_of_gt this

theorem sqrt3_ne : Real.sqrt 3 ≠ 0 := by
  have := Real.sqrt_pos.mpr (show (0:ℝ) < 3 by norm_num)
  exact ne_of_gt this

theorem p21_eq : p2_neg_p1 = ⟨-1, 1, 0⟩ := by
  simp [p2_neg_p1, Vec3.sub, P1, P2]

theorem p31_eq : p3_neg_p1 = ⟨-1, 0, 1⟩ := by
  simp [p3_neg_p1, Vec3.sub, P1, P3]

theorem d_eq : d = Real.sqrt 2 := by
  rw [d, p21_eq]
  simp [Vec3.length, Vec3.dot]
  norm_num

theorem ex_eq : e_x = ⟨-(Real.sqrt 2)⁻¹, (Real.sqrt 2)⁻¹, 0⟩ := by
  rw [e_x, p21_eq]
  simp only [Vec3.normalize, Vec3.length, Vec3.dot, Vec3.smul]
  ext <;> simp <;> norm_num

theorem i_eq : i = (Real.sqrt 2)⁻¹ := by
  rw [i, ex_eq, p31_eq]
  simp [Vec3.dot]

end Trilaterate

namespace Trilaterate

theorem inv_sqrt2_sq : (Real.sqrt 2)⁻¹ * (Real.sqrt 2)⁻¹ = 1 / 2 := by
  rw [← mul_inv, sqrt2_sq]
  norm_num

theorem sqrt2_mul_sqrt32 : Real.sqrt 2 * Real.sqrt (3 / 2) = Real.sqrt 3 := by
  rw [← Real.sqrt_mul (by norm_num)]
  norm_num

theorem w_eq : p3_neg_p1.sub (Vec3.smul i e_x) = ⟨-(1 / 2), -(1 / 2), 1⟩ := by
  rw [p31_eq, i_eq, ex_eq]
  ext
  · show -1 - (Real.sqrt 2)⁻¹ * -(Real.sqrt 2)⁻¹ = -(1 / 2)
    linear_combination inv_sqrt2_sq
  · show 0 - (Real.sqrt 2)⁻¹ * (Real.sqrt 2)⁻¹ = -(1 / 2)
    linear_combination (-1 : ℝ) * inv_sqrt2_sq
  · show 1 - (Real.sqrt 2)⁻¹ * 0 = 1
    ring

theorem w_length : (Vec3.mk (-(1 / 2)) (-(1 / 2)) 1).length = Real.sqrt (3 / 2) := by
  simp [Vec3.length, Vec3.dot]
  norm_num

theorem ey_eq :
    e_y = ⟨-(1 / 2) * (Real.sqrt (3 / 2))⁻¹, -(1 / 2) * (Real.sqrt (3 / 2))⁻¹,
      (Real.sqrt (3 / 2))⁻¹⟩ := by
  rw [e_y, w_eq]
  simp only [Vec3.normalize, w_length, Vec3.smul]
  ext <;> simp <;> ring

theorem j_eq : j = Real.sqrt (3 / 2) := by
  rw [j, ey_eq, p31_eq]
  show -(1 / 2) * (Real.sqrt (3 / 2))⁻¹ * -1 + -(1 / 2) * (Real.sqrt (3 / 2))⁻¹ * 0 +
      (Real.sqrt (3 / 2))⁻¹ * 1 = Real.sqrt (3 / 2)
  have h : -(1 / 2) * (Real.sqrt (3 / 2))⁻¹ * -1 + -(1 / 2) * (Real.sqrt (3 / 2))⁻¹ * 0 +
      (Real.sqrt (3 / 2))⁻¹ * 1 = (3 / 2) / Real.sqrt (3 / 2) := by ring
  rw [h, div_eq_iff sqrt32_ne]
  linear_combination -sqrt32_sq

theorem ez_eq : e_z = ⟨(Real.sqrt 3)⁻¹, (Real.sqrt 3)⁻¹, (Real.sqrt 3)⁻¹⟩ := by
  rw [e_z, ex_eq, ey_eq]
  have key : (Real.sqrt 2)⁻¹ * (Real.sqrt (3 / 2))⁻¹ = (Real.sqrt 3)⁻¹ := by
    rw [← mul_inv, sqrt2_mul_sqrt32]
  ext
  · show (Real.sqrt 2)⁻¹ * (Real.sqrt (3 / 2))⁻¹ -
        0 * (-(1 / 2) * (Real.sqrt (3 / 2))⁻¹) = (Real.sqrt 3)⁻¹
    linear_combination key
  · show 0 * (-(1 / 2) * (Real.sqrt (3 / 2))⁻¹) -
        -(Real.sqrt 2)⁻¹ * (Real.sqrt (3 / 2))⁻¹ = (Real.sqrt 3)⁻¹
    linear_combination key
  · show -(Real.sqrt 2)⁻¹ * (-(1 / 2) * (Real.sqrt (3 / 2))⁻¹) -
        (Real.sqrt 2)⁻¹ * (-(1 / 2) * (Real.sqrt (3 / 2))⁻¹) = (Real.sqrt 3)⁻¹
    linear_combination key

end Trilaterate

namespace Trilaterate

theorem sqrt3_sq : Real.sqrt 3 * Real.sqrt 3 = 3 := Real.mul_self_sqrt (by norm_num)

theorem inv_sqrt3_sq : (Real.sqrt 3)⁻¹ * (Real.sqrt 3)⁻¹ = 1 / 3 := by
  rw [← mul_inv, sqrt3_sq]
  norm_num

theorem x_unit : x 1 1 = (Real.sqrt 2)⁻¹ := by
  have h2 : (Real.sqrt 2)⁻¹ * (2 * Real.sqrt 2) = 2 := by
    rw [mul_comm (2 : ℝ) (Real.sqrt 2), ← mul_assoc, inv_mul_cancel₀ sqrt2_ne]
    ring
  rw [x, d_eq, sqrt2_sq, div_eq_iff (mul_ne_zero two_ne_zero sqrt2_ne), h2]
  norm_num

theorem y_unit : y 1 1 1 = Real.sqrt (3 / 2) / 3 := by
  rw [y, i_eq, j_eq, x_unit]
  have h1 : (1 * 1 - 1 * 1 + (Real.sqrt 2)⁻¹ * (Real.sqrt 2)⁻¹ +
        Real.sqrt (3 / 2) * Real.sqrt (3 / 2)) / (2 * Real.sqrt (3 / 2)) -
      (Real.sqrt 2)⁻¹ / Real.sqrt (3 / 2) * (Real.sqrt 2)⁻¹ =
      (1 / 2) / Real.sqrt (3 / 2) := by
    rw [div_mul_eq_mul_div, inv_sqrt2_sq, sqrt32_sq]
    ring
  rw [h1, div_eq_div_iff sqrt32_ne (by norm_num : (3 : ℝ) ≠ 0)]
  linear_combination -sqrt32_sq

theorem z1_unit : z1 1 1 1 = (Real.sqrt 3)⁻¹ := by
  rw [z1, x_unit, y_unit]
  have hinner : 1 * 1 - (Real.sqrt 2)⁻¹ * (Real.sqrt 2)⁻¹ -
      Real.sqrt (3 / 2) / 3 * (Real.sqrt (3 / 2) / 3) = (3 : ℝ)⁻¹ := by
    rw [div_mul_div_comm, sqrt32_sq, inv_sqrt2_sq]
    norm_num
  rw [hinner, Real.sqrt_inv]

theorem z2_unit : z2 1 1 1 = -(Real.sqrt 3)⁻¹ := by
  rw [z2, z1_unit]
  ring

theorem ans1_unit : ans1 1 1 1 = ⟨2 / 3, 2 / 3, 2 / 3⟩ := by
  have ht : Real.sqrt (3 / 2) * (Real.sqrt (3 / 2))⁻¹ = 1 := mul_inv_cancel₀ sqrt32_ne
  rw [ans1, x_unit, y_unit, z1_unit, ex_eq, ey_eq, ez_eq]
  ext
  · show P1.x + (Real.sqrt 2)⁻¹ * -(Real.sqrt 2)⁻¹ +
        Real.sqrt (3 / 2) / 3 * (-(1 / 2) * (Real.sqrt (3 / 2))⁻¹) +
        (Real.sqrt 3)⁻¹ * (Real.sqrt 3)⁻¹ = 2 / 3
    show 1 + (Real.sqrt 2)⁻¹ * -(Real.sqrt 2)⁻¹ +
        Real.sqrt (3 / 2) / 3 * (-(1 / 2) * (Real.sqrt (3 / 2))⁻¹) +
        (Real.sqrt 3)⁻¹ * (Real.sqrt 3)⁻¹ = 2 / 3
    linear_combination (-1 : ℝ) * inv_sqrt2_sq - (1 / 6 : ℝ) * ht + inv_sqrt3_sq
  · show 0 + (Real.sqrt 2)⁻¹ * (Real.sqrt 2)⁻¹ +
        Real.sqrt (3 / 2) / 3 * (-(1 / 2) * (Real.sqrt (3 / 2))⁻¹) +
        (Real.sqrt 3)⁻¹ * (Real.sqrt 3)⁻¹ = 2 / 3
    linear_combination inv_sqrt2_sq - (1 / 6 : ℝ) * ht + inv_sqrt3_sq
  · show 0 + (Real.sqrt 2)⁻¹ * 0 +
        Real.sqrt (3 / 2) / 3 * (Real.sqrt (3 / 2))⁻¹ +
        (Real.sqrt 3)⁻¹ * (Real.sqrt 3)⁻¹ = 2 / 3
    linear_combination (1 / 3 : ℝ) * ht + inv_sqrt3_sq

theorem ans2_unit : ans2 1 1 1 = ⟨0, 0, 0⟩ := by
  have ht : Real.sqrt (3 / 2) * (Real.sqrt (3 / 2))⁻¹ = 1 := mul_inv_cancel₀ sqrt32_ne
  rw [ans2, x_unit, y_unit, z2_unit, ex_eq, ey_eq, ez_eq]
  ext
  · show 1 + (Real.sqrt 2)⁻¹ * -(Real.sqrt 2)⁻¹ +
        Real.sqrt (3 / 2) / 3 * (-(1 / 2) * (Real.sqrt (3 / 2))⁻¹) +
        -(Real.sqrt 3)⁻¹ * (Real.sqrt 3)⁻¹ = 0
    linear_combination (-1 : ℝ) * inv_sqrt2_sq - (1 / 6 : ℝ) * ht - inv_sqrt3_sq
  · show 0 + (Real.sqrt 2)⁻¹ * (Real.sqrt 2)⁻¹ +
        Real.sqrt (3 / 2) / 3 * (-(1 / 2) * (Real.sqrt (3 / 2))⁻¹) +
        -(Real.sqrt 3)⁻¹ * (Real.sqrt 3)⁻¹ = 0
    linear_combination inv_sqrt2_sq - (1 / 6 : ℝ) * ht - inv_sqrt3_sq
  · show 0 + (Real.sqrt 2)⁻¹ * 0 +
        Real.sqrt (3 / 2) / 3 * (Real.sqrt (3 / 2))⁻¹ +
        -(Real.sqrt 3)⁻¹ * (Real.sqrt 3)⁻¹ = 0
    linear_combination (1 / 3 : ℝ) * ht - inv_sqrt3_sq

theorem ans1_len : (ans1 1 1 1).length = Real.sqrt (4 / 3) := by
  rw [ans1_unit]
  simp [Vec3.length, Vec3.dot]
  norm_num

theorem ans2_len : (ans2 1 1 1).length = 0 := by
  rw [ans2_unit]
  simp [Vec3.length, Vec3.dot]

theorem branch_unit :
    ¬((ans1 1 1 1).length - 1 < (ans2 1 1 1).length - 1) := by
  rw [ans1_len, ans2_len]
  have h := Real.sqrt_nonneg (4 / 3 : ℝ)
  intro hlt
  linarith

end Trilaterate

/-- Claim C6 (confirmed): with reference points (1,0,0), (0,1,0), (0,0,1) and
the origin as the fourth reference, `trilaterate(1,1,1,1)` returns exactly
(0,0,0) in the real model. -/
theorem trilaterate_unit_roundtrip : Trilaterate.trilaterate 1 1 1 1 = ⟨0, 0, 0⟩ := by
  rw [Trilaterate.trilaterate, if_neg Trilaterate.branch_unit, Trilaterate.ans2_unit]

/-- Claim C5 (code-bug evaluation): at r1 = r2 = r3 = r4 = 1 the code returns
the mirror candidate `ans2` = (0,0,0), whose distance-to-origin error
|‖ans2‖ − r4| = 1, even though the other candidate `ans1` = (2/3,2/3,2/3) has
the strictly smaller error |‖ans1‖ − r4| = 2/√3 − 1.  The comparison
`ans1.length() - r4 < ans2.length() - r4` cancels r4 from both sides, so the
returned candidate is NOT the one minimizing |length − r4|. -/
theorem trilaterate_pick_ignores_r4 :
    Trilaterate.trilaterate 1 1 1 1 = Trilaterate.ans2 1 1 1 ∧
    |(Trilaterate.ans1 1 1 1).length - 1| < |(Trilaterate.ans2 1 1 1).length - 1| := by
  constructor
  · rw [Trilaterate.trilaterate, if_neg Trilaterate.branch_unit]
  · rw [Trilaterate.ans1_len, Trilaterate.ans2_len]
    have h4 : Real.sqrt 4 = 2 := by
      rw [show (4 : ℝ) = 2 ^ 2 by norm_num, Real.sqrt_sq (by norm_num)]
    have hlow : 1 ≤ Real.sqrt (4 / 3) := by
      rw [show (1 : ℝ) = Real.sqrt 1 from Real.sqrt_one.symm]
      exact Real.sqrt_le_sqrt (by norm_num)
    have hhigh : Real.sqrt (4 / 3) < 2 := by
      rw [← h4]
      exact Real.sqrt_lt_sqrt (by norm_num) (by norm_num)
    rw [abs_of_nonneg (by linarith), abs_of_nonpos (by norm_num)]
    linarith
